import Mathlib

/-!
# Verification of the efficient-frontier generator

Shallow embedding of `src/tools/generate_frontier_data.py` and proofs about it.

The program computes with IEEE-754 binary64 floating point.  Binary64 values
are dyadic rationals, and every arithmetic operation of the program rounds the
exact rational result to 53 significant bits (round to nearest, ties to even).
We model float values as the exact rationals they denote and each float
operation as the exact rational operation followed by `rnd53`, the rounding
function below.  No value of this program comes close to binary64 overflow or
subnormal range, so `rnd53` does not model those.

Helper operations `qAdd`, `qSub`, `qMul`, `qDiv`, `qmax`, `qabs` compute the
exact rational operations through `Rat.divInt` and `Rat.blt`, which the kernel
can evaluate (the standard `+`, `*`, `/`, `-` on `ℚ` are `@[irreducible]`);
bridge lemmas prove each equal to the standard operation.
-/

set_option maxRecDepth 16000

set_option maxHeartbeats 100000000

namespace Frontier

/-- Floor of the base-2 logarithm of a natural number in `[1, 2^256)`,
by an unrolled binary search.  Arguments `0` and `1` give `0`. -/
def lg2 (n : ℕ) : ℕ :=
  let s1 := if 2^128 ≤ n then 128 else 0
  let s2 := if 2^(s1+64) ≤ n then s1+64 else s1
  let s3 := if 2^(s2+32) ≤ n then s2+32 else s2
  let s4 := if 2^(s3+16) ≤ n then s3+16 else s3
  let s5 := if 2^(s4+8) ≤ n then s4+8 else s4
  let s6 := if 2^(s5+4) ≤ n then s5+4 else s5
  let s7 := if 2^(s6+2) ≤ n then s6+2 else s6
  if 2^(s7+1) ≤ n then s7+1 else s7

/-- Round a positive rational to 53 significant bits, ties to even:
the value of the binary64 float nearest to `q`. -/
def rnd53pos (q : ℚ) : ℚ :=
  let a : ℕ := q.num.toNat
  let b : ℕ := q.den
  let t : ℕ := lg2 b + 1
  let e : ℤ := (lg2 (a * 2^t / b) : ℤ) - t - 52
  let AB : ℕ × ℕ := if 0 ≤ e then (a, b * 2^e.toNat) else (a * 2^(-e).toNat, b)
  let m : ℕ := AB.1 / AB.2
  let rem : ℕ := AB.1 % AB.2
  let m' : ℕ := if 2*rem < AB.2 then m else if AB.2 < 2*rem then m + 1
                else if m % 2 = 0 then m else m + 1
  if 0 ≤ e then Rat.divInt (m' * 2^e.toNat : ℕ) 1 else Rat.divInt m' (2^(-e).toNat : ℕ)

/-- Round a rational to the value of the nearest binary64 float. -/
def rnd53 (q : ℚ) : ℚ :=
  if q.num = 0 then 0
  else if 0 < q.num then rnd53pos q
  else Rat.neg (rnd53pos (Rat.neg q))

/-- Exact rational product, in a kernel-evaluable form. -/
def qMul (a b : ℚ) : ℚ := Rat.divInt (a.num * b.num) (a.den * b.den)

/-- Exact rational sum, in a kernel-evaluable form. -/
def qAdd (a b : ℚ) : ℚ := Rat.divInt (a.num * b.den + b.num * a.den) (a.den * b.den)

/-- Exact rational difference, in a kernel-evaluable form. -/
def qSub (a b : ℚ) : ℚ := Rat.divInt (a.num * b.den - b.num * a.den) (a.den * b.den)

/-- Exact rational quotient (`0` for a zero divisor, as in `ℚ`),
in a kernel-evaluable form. -/
def qDiv (a b : ℚ) : ℚ := Rat.divInt (a.num * b.den) (a.den * b.num)

/-- Exact maximum, in a kernel-evaluable form. -/
def qmax (a b : ℚ) : ℚ := if Rat.blt a b then b else a

/-- Exact absolute value, in a kernel-evaluable form. -/
def qabs (a : ℚ) : ℚ := if a.num < 0 then Rat.neg a else a

theorem rat_lt_iff_blt (a b : ℚ) : a < b ↔ Rat.blt a b = true := Iff.rfl

theorem rat_neg_eq (a : ℚ) : Rat.neg a = -a := rfl

/-- Order on `ℚ` decided through `Rat.blt`, which the kernel can evaluate
(the default instance is defined by tactics and gets stuck in `decide`). -/
instance (priority := 2000) ratDecidableLe (a b : ℚ) : Decidable (a ≤ b) :=
  decidable_of_iff (Rat.blt b a = false) Iff.rfl

/-- Strict order on `ℚ` decided through `Rat.blt`. -/
instance (priority := 2000) ratDecidableLt (a b : ℚ) : Decidable (a < b) :=
  decidable_of_iff (Rat.blt a b = true) Iff.rfl

theorem qMul_eq (a b : ℚ) : qMul a b = a * b := by
  have ha : ((a.den : ℚ)) ≠ 0 := by exact_mod_cast a.den_nz
  have hb : ((b.den : ℚ)) ≠ 0 := by exact_mod_cast b.den_nz
  have hA : (a.num : ℚ) = a * a.den := (div_eq_iff ha).mp (Rat.num_div_den a)
  have hB : (b.num : ℚ) = b * b.den := (div_eq_iff hb).mp (Rat.num_div_den b)
  rw [qMul, Rat.divInt_eq_div]
  push_cast
  rw [div_eq_iff (mul_ne_zero ha hb), hA, hB]
  ring

theorem qAdd_eq (a b : ℚ) : qAdd a b = a + b := by
  have ha : ((a.den : ℚ)) ≠ 0 := by exact_mod_cast a.den_nz
  have hb : ((b.den : ℚ)) ≠ 0 := by exact_mod_cast b.den_nz
  have hA : (a.num : ℚ) = a * a.den := (div_eq_iff ha).mp (Rat.num_div_den a)
  have hB : (b.num : ℚ) = b * b.den := (div_eq_iff hb).mp (Rat.num_div_den b)
  rw [qAdd, Rat.divInt_eq_div]
  push_cast
  rw [div_eq_iff (mul_ne_zero ha hb), hA, hB]
  ring

theorem qSub_eq (a b : ℚ) : qSub a b = a - b := by
  have ha : ((a.den : ℚ)) ≠ 0 := by exact_mod_cast a.den_nz
  have hb : ((b.den : ℚ)) ≠ 0 := by exact_mod_cast b.den_nz
  have hA : (a.num : ℚ) = a * a.den := (div_eq_iff ha).mp (Rat.num_div_den a)
  have hB : (b.num : ℚ) = b * b.den := (div_eq_iff hb).mp (Rat.num_div_den b)
  rw [qSub, Rat.divInt_eq_div]
  push_cast
  rw [div_eq_iff (mul_ne_zero ha hb), hA, hB]
  ring

theorem qDiv_eq (a b : ℚ) : qDiv a b = a / b := by
  rcases eq_or_ne b 0 with rfl | hb
  · simp [qDiv, Rat.divInt_eq_div]
  · have hbn : (b.num : ℚ) ≠ 0 := by
      exact_mod_cast fun h => hb (Rat.zero_of_num_zero h)
    have ha : ((a.den : ℚ)) ≠ 0 := by exact_mod_cast a.den_nz
    have hbd : ((b.den : ℚ)) ≠ 0 := by exact_mod_cast b.den_nz
    have hA : (a.num : ℚ) = a * a.den := (div_eq_iff ha).mp (Rat.num_div_den a)
    have hB : (b.num : ℚ) = b * b.den := (div_eq_iff hbd).mp (Rat.num_div_den b)
    rw [qDiv, Rat.divInt_eq_div]
    push_cast
    rw [div_eq_iff (mul_ne_zero ha hbn), div_mul_eq_mul_div, eq_div_iff hb, hA, hB]
    ring

theorem qmax_eq (a b : ℚ) : qmax a b = max a b := by
  rw [qmax, max_def]
  cases hb : Rat.blt a b with
  | true =>
      have h : a < b := hb
      rw [if_pos rfl, if_pos h.le]
  | false =>
      have h : ¬ a < b := by rw [rat_lt_iff_blt, hb]; exact Bool.false_ne_true
      rw [if_neg Bool.false_ne_true]
      rcases eq_or_lt_of_le (not_lt.mp h) with heq | hlt
      · rw [heq, if_pos le_rfl]
      · rw [if_neg (not_le.mpr hlt)]

theorem qabs_eq (a : ℚ) : qabs a = |a| := by
  have hneg : Rat.neg a = -a := rfl
  rw [qabs, hneg]
  rcases lt_or_ge a.num 0 with h | h
  · rw [if_pos h, abs_of_neg (by rwa [← Rat.num_neg])]
  · rw [if_neg (not_lt.mpr h), abs_of_nonneg (by rwa [← Rat.num_nonneg])]

/-- Binary64 addition: exact sum, then rounding. -/
def fAdd (x y : ℚ) : ℚ := rnd53 (qAdd x y)

/-- Binary64 subtraction: exact difference, then rounding. -/
def fSub (x y : ℚ) : ℚ := rnd53 (qSub x y)

/-- Binary64 multiplication: exact product, then rounding. -/
def fMul (x y : ℚ) : ℚ := rnd53 (qMul x y)

/-- Binary64 division: exact quotient, then rounding. -/
def fDiv (x y : ℚ) : ℚ := rnd53 (qDiv x y)

/-- The value of the binary64 float written `0.02` in the source
(`step = 0.02` in `enumerate_portfolios`). -/
def step : ℚ := rnd53 (Rat.divInt 2 100)

/-- The value of the binary64 float written `1e-9` in the source
(the `w3` tolerance and both tolerances of the `math.isclose` call). -/
def tol9 : ℚ := rnd53 (Rat.divInt 1 (10^9))

/-- The value of the binary64 float written `1e-12` in the source
(the strict-improvement epsilon in `trace_efficient_frontier`). -/
def eps12 : ℚ := rnd53 (Rat.divInt 1 (10^12))

/-- The binary64 value of `0.02` is `5764607523034235 / 2^58`. -/
theorem step_val : step = Rat.divInt 5764607523034235 (2^58) := by decide

/-- The binary64 value of `1e-9`; note it is slightly larger than `10⁻⁹`. -/
theorem tol9_val : tol9 = Rat.divInt 4835703278458517 (2^82) := by decide

/-- The binary64 value of `1e-12`. -/
theorem eps12_val : eps12 = Rat.divInt 4951760157141521 (2^92) := by decide

theorem eps12_pos : 0 < eps12 := by
  rw [eps12_val, Rat.divInt_eq_div]
  positivity

/-!
## Return Series Builder (`compute_daily_returns`, source lines 72–95)

A price row is modelled as a map from column name to price; a price of `none`
models Python's "not a number" (the code only ever asks `math.isnan`, so `NaN`
needs no other behaviour).  The mutable dict `previous_close` becomes a
function `String → Option ℚ` threaded through the recursion; `none` models its
`NaN` entries.  `processRow` is the body of the `for row in rows` loop: it
walks the tickers in order and, like the Python `break`, stops at the first
ticker whose close is invalid or whose previous close is unset, returning the
updated state and `none` in place of the row's returns.
-/

/-- Pointwise update of the previous-close tracking state
(`previous_close[ticker] = v`). -/
def upd (f : String → Option ℚ) (k : String) (v : Option ℚ) : String → Option ℚ :=
  fun x => if x = k then v else f x

/-- One iteration of the row loop of `compute_daily_returns`: returns the
updated previous-close state and `some` daily returns (in ticker order), or
`none` when the row is skipped. -/
def processRow (prev row : String → Option ℚ) :
    List String → (String → Option ℚ) × Option (List (String × ℚ))
  | [] => (prev, some [])
  | t :: rest =>
    match row ("Close_" ++ t) with
    | none => (upd prev t none, none)
    | some close =>
      match prev t with
      | none => (upd prev t (some close), none)
      | some prev_price =>
        let res := processRow (upd prev t (some close)) row rest
        (res.1, res.2.map (fun daily => (t, close / prev_price - 1) :: daily))

/-- The row recursion of `compute_daily_returns`, threading the
previous-close state. -/
def computeRows (tickers : List String) :
    (String → Option ℚ) → List (String → Option ℚ) → List (List (String × ℚ))
  | _, [] => []
  | prev, row :: rest =>
    let res := processRow prev row tickers
    match res.2 with
    | some daily =>
        if daily.isEmpty then computeRows tickers res.1 rest
        else daily :: computeRows tickers res.1 rest
    | none => computeRows tickers res.1 rest

/-- `compute_daily_returns` (source lines 72–95): every `previous_close`
entry starts as `NaN` (`none`). -/
def compute_daily_returns (rows : List (String → Option ℚ)) (tickers : List String) :
    List (List (String × ℚ)) :=
  computeRows tickers (fun _ => none) rows

/-!
## Statistics Engine (`sample_covariance`, `build_covariance_matrix`,
source lines 98–117)

These functions are modelled with exact rational arithmetic: the claims about
them are the mathematical contracts (Bessel-corrected covariance, symmetry),
and none of their verdicts depends on rounding.  `statistics.mean` computes
the exactly rounded mean, modelled as the exact mean.  A raised `ValueError`
becomes the `Except.error` case.
-/

/-- `statistics.mean` (exact; the empty-list case is never reached under the
guards of `sample_covariance`). -/
def mean (xs : List ℚ) : ℚ := xs.sum / xs.length

/-- `sample_covariance` (source lines 98–106). -/
def sample_covariance (a b : List ℚ) : Except String ℚ :=
  if a.length ≠ b.length then .error "Return series must have identical lengths"
  else if a.length < 2 then .ok 0
  else .ok ((((a.zip b).map fun p => (p.1 - mean a) * (p.2 - mean b)).sum) /
    ((a.length : ℚ) - 1))

/-- Error-propagating map: the value collected by an appending loop over
fallible calls, stopping at the first raised error. -/
def mapExcept {α β ε : Type} (g : α → Except ε β) : List α → Except ε (List β)
  | [] => .ok []
  | x :: xs =>
    match g x with
    | .error e => .error e
    | .ok y =>
      match mapExcept g xs with
      | .error e => .error e
      | .ok ys => .ok (y :: ys)

/-- `build_covariance_matrix` (source lines 109–117): the nested
append loops become nested `mapExcept`, with the same iteration order and
the same first-error propagation. -/
def build_covariance_matrix (return_series : String → List ℚ) (tickers : List String) :
    Except String (List (List ℚ)) :=
  mapExcept (fun ti => mapExcept (fun tj =>
    sample_covariance (return_series ti) (return_series tj)) tickers) tickers

/-- Entry `(i, j)` of a matrix given as a list of rows (total, with a `0`
default; all uses are in-bounds). -/
def matEntry (M : List (List ℚ)) (i j : ℕ) : ℚ := (M.getD i []).getD j 0

/-!
## Portfolio Enumerator (`portfolio_variance`, `enumerate_portfolios`,
source lines 120–150)

This is the floating-point-sensitive part: the loop bounds
`int(1 / step u) + 1` and `int((1 - w1) / step) + 1` are computed in binary64,
so every arithmetic operation here goes through `rnd53`.  `int()` on the
non-negative floats that arise is `pyInt` below.
-/

/-- Python `int()` truncation for the non-negative rationals arising here. -/
def pyInt (q : ℚ) : ℕ := q.num.toNat / q.den

/-- `portfolio_variance` (source lines 120–125): the accumulating
`variance += weight_i * weight_j * covariance_matrix[i][j]` loop over all
index pairs, in row-major order, in binary64 arithmetic. -/
def portfolio_variance (weights : List ℚ) (covariance_matrix : List (List ℚ)) : ℚ :=
  weights.enum.foldl (fun v iw =>
    weights.enum.foldl (fun v' jw =>
      fAdd v' (fMul (fMul iw.2 jw.2) (matEntry covariance_matrix iw.1 jw.1))) v) 0

/-- The float `k * step`: the value of `w1 = i * step` in the outer grid
loop and of `w2 = j * step` in the inner one. -/
def wval (k : ℕ) : ℚ := fMul (Rat.divInt k 1) step

/-- The outer iteration count `int(1 / step) + 1` (source line 135). -/
def outerCount : ℕ := pyInt (fDiv 1 step) + 1

/-- The inner iteration count `int((1 - w1) / step) + 1` (source line 137). -/
def innerCount (i : ℕ) : ℕ := pyInt (fDiv (fSub 1 (wval i)) step) + 1

/-- `math.isclose(a, b, abs_tol=1e-9)` (CPython):
`fabs(a-b) <= max(rel_tol * max(fabs(a), fabs(b)), abs_tol)` with the default
`rel_tol = 1e-9`, each operation in binary64. -/
def isclose (a b : ℚ) : Bool :=
  !Rat.blt (qmax (fMul tol9 (qmax (qabs a) (qabs b))) tol9) (qabs (fSub a b))

/-- The weight block of the grid loop body (source lines 138–144), given the
already computed floats `w1` and `w2`: computes `w3 = 1.0 - w1 - w2`, drops
the point if `w3 < -1e-9`, clamps `w3` to `0`, and re-validates the sum
with `math.isclose`; `none` models `continue`. -/
def combineWeights (w1 w2 : ℚ) : Option (ℚ × ℚ × ℚ) :=
  let w3 := fSub (fSub 1 w1) w2
  if Rat.blt w3 (Rat.neg tol9) then none
  else
    let w3c := qmax w3 0
    if isclose (fAdd (fAdd w1 w2) w3c) 1 then some (w1, w2, w3c) else none

/-- The weight block of the grid loop body at indices `(i, j)` (source
lines 136–144). -/
def gridWeights (i j : ℕ) : Option (ℚ × ℚ × ℚ) :=
  combineWeights (wval i) (wval j)

/-- A portfolio produced by the enumerator.  The source stores
`risk = math.sqrt(max(variance, 0.0))`; a square root is irrational, so the
model stores the variance and `GridPoint.risk` below is the (real) square
root of its clamped value.  (The rounding of `math.sqrt` itself is not
modelled; it affects no claim, as rounding preserves sign.) -/
structure GridPoint where
  weights : List (String × ℚ)
  expected_return : ℚ
  variance : ℚ
deriving DecidableEq

/-- The stored risk of an enumerated portfolio:
`math.sqrt(max(variance, 0.0))` (source line 147). -/
noncomputable def GridPoint.risk (p : GridPoint) : ℝ :=
  Real.sqrt (max (p.variance : ℝ) 0)

/-- `sum(w * r for w, r in zip(weights, expected_returns))` (source
line 145): a left fold of binary64 additions of the rounded products,
starting from `0`. -/
def dotProduct (ws rs : List ℚ) : ℚ :=
  ((ws.zip rs).map fun p => fMul p.1 p.2).foldl fAdd 0

/-- The grid of accepted portfolio points (the loop of source lines
135–149). -/
def portfolioGrid (tickers : List String) (expected_returns : List ℚ)
    (covariance_matrix : List (List ℚ)) : List GridPoint :=
  (List.range outerCount).flatMap fun i =>
    (List.range (innerCount i)).filterMap fun j =>
      (gridWeights i j).map fun w =>
        { weights := tickers.zip [w.1, w.2.1, w.2.2]
          expected_return := dotProduct [w.1, w.2.1, w.2.2] expected_returns
          variance := portfolio_variance [w.1, w.2.1, w.2.2] covariance_matrix }

/-- `enumerate_portfolios` (source lines 128–150): fails fast unless there
are exactly three assets, otherwise returns the full grid. -/
def enumerate_portfolios (tickers : List String) (expected_returns : List ℚ)
    (covariance_matrix : List (List ℚ)) : Except String (List GridPoint) :=
  if tickers.length ≠ 3 then
    .error "This generator currently assumes exactly three assets"
  else
    .ok (portfolioGrid tickers expected_returns covariance_matrix)

/-!
## Frontier Extractor (`trace_efficient_frontier`, source lines 153–161)

The claims about the frontier quantify over arbitrary finite lists of
portfolio points, so points are modelled with rational `risk` and
`expected_return` fields.  Python's `sorted` is a stable sort by risk;
`List.insertionSort` is also stable, hence produces the same list.  The only
idealisation: `max_return + 1e-12` is modelled as exact rational addition of
the binary64 value of `1e-12` (the claims proved here are order properties
that hold under either reading).  `max_return = -math.inf` is the `none`
state of the sweep. -/
structure PortfolioPoint where
  weights : List (String × ℚ)
  expected_return : ℚ
  risk : ℚ
deriving DecidableEq

/-- The retention test `point.expected_return > max_return + 1e-12`, with
`none` as `-inf`. -/
def keepB (m : Option ℚ) (ret : ℚ) : Bool :=
  match m with
  | none => true
  | some mv => Rat.blt (qAdd mv eps12) ret

/-- The scan of the risk-sorted points, keeping a point iff its return
strictly improves on the running maximum by more than `1e-12`. -/
def sweep : List PortfolioPoint → Option ℚ → List PortfolioPoint
  | [], _ => []
  | p :: rest, m =>
    if keepB m p.expected_return then p :: sweep rest (some p.expected_return)
    else sweep rest m

/-- `trace_efficient_frontier` (source lines 153–161). -/
def trace_efficient_frontier (points : List PortfolioPoint) : List PortfolioPoint :=
  sweep (points.insertionSort fun p q => p.risk ≤ q.risk) none

/-!
## Claim C8: the three-asset precondition of `enumerate_portfolios`
-/

/-- C8: `enumerate_portfolios` fails with the configuration error exactly
when the asset count differs from 3; with three assets it returns the full
grid (so the error is raised before any point is produced, and a wrong count
is never silently truncated). -/
theorem enumerate_portfolios_three_assets (tickers : List String)
    (expected_returns : List ℚ) (covariance_matrix : List (List ℚ)) :
    (∃ msg, enumerate_portfolios tickers expected_returns covariance_matrix =
      .error msg) ↔ tickers.length ≠ 3 := by
  constructor
  · rintro ⟨msg, h⟩ h3
    rw [enumerate_portfolios, if_neg (fun hne => hne h3)] at h
    cases h
  · intro h3
    exact ⟨_, by rw [enumerate_portfolios, if_pos h3]⟩

/-!
## Claims C4 and C5: the `sample_covariance` contract
-/

/-- C5: `sample_covariance` errors exactly on a length mismatch; on equal
lengths it returns `0.0` for fewer than two observations and the
Bessel-corrected covariance `Σ (a - mean A) * (b - mean B) / (n - 1)`
otherwise. -/
theorem sample_covariance_contract (a b : List ℚ) :
    ((∃ msg, sample_covariance a b = .error msg) ↔ a.length ≠ b.length) ∧
    (a.length = b.length → a.length < 2 → sample_covariance a b = .ok 0) ∧
    (a.length = b.length → 2 ≤ a.length →
      sample_covariance a b =
        .ok ((((a.zip b).map fun p => (p.1 - mean a) * (p.2 - mean b)).sum) /
          ((a.length : ℚ) - 1))) := by
  refine ⟨⟨?_, ?_⟩, ?_, ?_⟩
  · rintro ⟨msg, h⟩ hlen
    rw [sample_covariance, if_neg (fun hne => hne hlen)] at h
    split at h <;> cases h
  · intro hlen
    exact ⟨_, by rw [sample_covariance, if_pos hlen]⟩
  · intro hlen h2
    rw [sample_covariance, if_neg (fun hne => hne hlen), if_pos h2]
  · intro hlen h2
    rw [sample_covariance, if_neg (fun hne => hne hlen),
      if_neg (not_lt.mpr h2)]

/-- `sample_covariance [0, 1] [2, 5]` succeeds with the covariance formula;
the remaining contract cases at the same input. -/
theorem sample_covariance_contract_witness :
    sample_covariance [(0 : ℚ), 1] [2, 5] =
      .ok (((([(0 : ℚ), 1].zip [2, 5]).map
        fun p => (p.1 - mean [0, 1]) * (p.2 - mean [2, 5])).sum) /
          ((([(0 : ℚ), 1].length : ℚ)) - 1)) :=
  (sample_covariance_contract [0, 1] [2, 5]).2.2 rfl (by decide)

/-- Zipping a list with itself pairs each element with itself. -/
theorem zip_self {α : Type} (X : List α) : X.zip X = X.map fun x => (x, x) := by
  induction X with
  | nil => rfl
  | cons x xs ih => simp [List.zip_cons_cons, ih]

/-- C4: on a series of length at least two, `sample_covariance X X` is the
Bessel-corrected sample variance `Σ (x - mean X)² / (n - 1)`, and that value
is non-negative. -/
theorem sample_covariance_self_variance (X : List ℚ) (h2 : 2 ≤ X.length) :
    sample_covariance X X =
      .ok (((X.map fun x => (x - mean X)^2).sum) / ((X.length : ℚ) - 1)) ∧
    0 ≤ ((X.map fun x => (x - mean X)^2).sum) / ((X.length : ℚ) - 1) := by
  have hform : ((X.zip X).map fun p => (p.1 - mean X) * (p.2 - mean X)).sum =
      ((X.map fun x => (x - mean X)^2)).sum := by
    rw [zip_self, List.map_map]
    refine congrArg List.sum (List.map_congr_left fun x _ => ?_)
    simp [Function.comp, sq]
  have hnn : 0 ≤ ((X.map fun x => (x - mean X)^2).sum) / ((X.length : ℚ) - 1) := by
    apply div_nonneg
    · apply List.sum_nonneg
      intro x hx
      rcases List.mem_map.mp hx with ⟨y, _, rfl⟩
      exact sq_nonneg _
    · have : (2 : ℚ) ≤ (X.length : ℚ) := by exact_mod_cast h2
      linarith
  refine ⟨?_, hnn⟩
  rw [sample_covariance, if_neg (fun hne => hne rfl), if_neg (not_lt.mpr h2),
    hform]

/-- C4 at the series `[0, 1]`: the hypothesis holds and the variance is
non-negative there. -/
theorem sample_covariance_self_variance_witness :
    sample_covariance [(0 : ℚ), 1] [0, 1] =
      .ok ((([(0 : ℚ), 1].map fun x => (x - mean [0, 1])^2).sum) /
        ((([(0 : ℚ), 1].length : ℚ)) - 1)) ∧
    0 ≤ ((([(0 : ℚ), 1].map fun x => (x - mean [0, 1])^2).sum) /
        ((([(0 : ℚ), 1].length : ℚ)) - 1)) :=
  sample_covariance_self_variance [0, 1] (by decide)

/-!
## Claim C9: symmetry of `build_covariance_matrix`
-/

/-- The value returned by a successful `sample_covariance` call. -/
def sample_covariance_val (a b : List ℚ) : ℚ :=
  if a.length < 2 then 0
  else (((a.zip b).map fun p => (p.1 - mean a) * (p.2 - mean b)).sum) /
    ((a.length : ℚ) - 1)

theorem sample_covariance_eq_ok (a b : List ℚ) (h : a.length = b.length) :
    sample_covariance a b = .ok (sample_covariance_val a b) := by
  rw [sample_covariance, sample_covariance_val, if_neg (fun hne => hne h)]
  split <;> rfl

/-- The covariance sum is symmetric in its two series. -/
theorem covSum_comm (ma mb : ℚ) : ∀ (a b : List ℚ),
    ((a.zip b).map fun p => (p.1 - ma) * (p.2 - mb)).sum =
    ((b.zip a).map fun p => (p.1 - mb) * (p.2 - ma)).sum
  | [], b => by simp
  | a :: as, [] => by simp
  | a :: as, b :: bs => by
    simp only [List.zip_cons_cons, List.map_cons, List.sum_cons,
      covSum_comm ma mb as bs]
    ring_nf

theorem sample_covariance_val_comm (a b : List ℚ) (h : a.length = b.length) :
    sample_covariance_val a b = sample_covariance_val b a := by
  rw [sample_covariance_val, sample_covariance_val, h, covSum_comm]

/-- A pointwise-successful `mapExcept` collects the values. -/
theorem mapExcept_ok {α β ε : Type} (g : α → Except ε β) (h : α → β) :
    ∀ l : List α, (∀ x ∈ l, g x = .ok (h x)) → mapExcept g l = .ok (l.map h)
  | [], _ => by simp [mapExcept]
  | x :: xs, H => by
    have hx : g x = .ok (h x) := H x (List.mem_cons_self x xs)
    have ihs : mapExcept g xs = .ok (xs.map h) :=
      mapExcept_ok g h xs fun y hy => H y (List.mem_cons_of_mem x hy)
    simp [mapExcept, hx, ihs]

/-- An in-bounds `getD` read is a member of the list. -/
theorem getD_lt_mem {α : Type} [Inhabited α] (l : List α) (i : ℕ)
    (hi : i < l.length) (d : α) : l.getD i d ∈ l := by
  rw [List.getD_eq_getElem?_getD, List.getElem?_eq_getElem hi]
  exact List.getElem_mem hi

/-- Reading an in-bounds entry of a mapped list with a default. -/
theorem getD_map_lt {α β : Type} [Inhabited β] (f : α → β) (l : List α) (i : ℕ)
    (hi : i < l.length) (d : β) (d' : α) :
    (l.map f).getD i d = f (l.getD i d') := by
  rw [List.getD_eq_getElem?_getD, List.getElem?_map,
    List.getElem?_eq_getElem hi, List.getD_eq_getElem?_getD,
    List.getElem?_eq_getElem hi]
  rfl

/-- C9: when all return series have the same length,
`build_covariance_matrix` succeeds with a square matrix that is symmetric,
and each diagonal entry is exactly the sample variance that
`sample_covariance` reports for that asset's series with itself. -/
theorem build_covariance_matrix_symm (rs : String → List ℚ)
    (tickers : List String)
    (hlen : ∀ t ∈ tickers, ∀ u ∈ tickers, (rs t).length = (rs u).length) :
    ∃ M, build_covariance_matrix rs tickers = .ok M ∧
      M.length = tickers.length ∧
      (∀ row ∈ M, row.length = tickers.length) ∧
      (∀ i j, i < tickers.length → j < tickers.length →
        matEntry M i j = matEntry M j i) ∧
      (∀ i, i < tickers.length →
        sample_covariance (rs (tickers.getD i "")) (rs (tickers.getD i "")) =
          .ok (matEntry M i i)) := by
  classical
  refine ⟨tickers.map fun ti => tickers.map fun tj =>
    sample_covariance_val (rs ti) (rs tj), ?_, ?_, ?_, ?_, ?_⟩
  · rw [build_covariance_matrix]
    apply mapExcept_ok
    intro ti hti
    apply mapExcept_ok
    intro tj htj
    exact sample_covariance_eq_ok _ _ (hlen ti hti tj htj)
  · simp
  · intro row hrow
    rcases List.mem_map.mp hrow with ⟨t, _, rfl⟩
    simp
  · intro i j hi hj
    have hti : tickers.getD i "" ∈ tickers := getD_lt_mem tickers i hi ""
    have htj : tickers.getD j "" ∈ tickers := getD_lt_mem tickers j hj ""
    rw [matEntry, matEntry]
    rw [getD_map_lt _ _ _ hi [] ""]
    rw [getD_map_lt _ _ _ hj [] ""]
    rw [getD_map_lt _ _ _ hj 0 ""]
    rw [getD_map_lt _ _ _ hi 0 ""]
    exact sample_covariance_val_comm _ _ (hlen _ hti _ htj)
  · intro i hi
    rw [matEntry]
    rw [getD_map_lt _ _ _ hi [] ""]
    rw [getD_map_lt _ _ _ hi 0 ""]
    exact sample_covariance_eq_ok _ _ rfl

/-- C9 at two constant-length series: the matrix is the 2×2 covariance
matrix, symmetric with variances on the diagonal. -/
theorem build_covariance_matrix_symm_witness :
    ∃ M, build_covariance_matrix
        (fun t => if t = "A" then [(0 : ℚ), 1] else [2, 5]) ["A", "B"] = .ok M ∧
      M.length = 2 ∧
      (∀ row ∈ M, row.length = 2) ∧
      (∀ i j, i < 2 → j < 2 → matEntry M i j = matEntry M j i) ∧
      (∀ i, i < 2 →
        sample_covariance
          ((fun t => if t = "A" then [(0 : ℚ), 1] else [2, 5])
            (["A", "B"].getD i ""))
          ((fun t => if t = "A" then [(0 : ℚ), 1] else [2, 5])
            (["A", "B"].getD i "")) = .ok (matEntry M i i)) :=
  build_covariance_matrix_symm _ ["A", "B"]
    (by intro t ht u hu; fin_cases ht <;> fin_cases hu <;> rfl)

/-!
## Claim C2: state tracking on rows with an invalid price

The claim says that a row with an invalid close emits no returns (true) and
that the previous-close state is still updated for every other asset on the
row.  The second part is false: the `break` in the ticker loop leaves every
ticker after the first failing one untouched.  Tickers before the break do
advance; this is captured by the amended theorem below.
-/

/-- A previous-close state with every ticker at `1.0`. -/
def prevC2 : String → Option ℚ := fun _ => some 1

/-- A price row where `B`'s close is invalid (`NaN`), `C` closes at `2.0`,
and every other column is `1.0`. -/
def rowC2 : String → Option ℚ := fun k =>
  if k = "Close_B" then none else if k = "Close_C" then some 2 else some 1

/-- C2 as stated is false: on the row where `B` is invalid, no returns are
emitted, but the tracking state of `C` (a ticker after `B`) is NOT advanced
to `C`'s current close `2.0` — it stays at the old `1.0`. -/
theorem processRow_counterexample :
    rowC2 "Close_B" = none ∧
    ¬ ((processRow prevC2 rowC2 ["A", "B", "C"]).2 = none ∧
       ∀ t ∈ ["A", "B", "C"],
         (processRow prevC2 rowC2 ["A", "B", "C"]).1 t = rowC2 ("Close_" ++ t)) := by
  decide

/-- C2 amended: whenever some ticker of the row fails (invalid close, or no
previous close yet) — in particular whenever any close is invalid — no
returns are emitted for the row, and the previous-close state is updated
only up to the first failing ticker: tickers before it advance to their
current close, the failing ticker is set to its row value (`none` when its
close is invalid, its close when only the previous close was missing), and
every other ticker keeps its old state. -/
theorem processRow_first_failure (prev row : String → Option ℚ)
    (pre post : List String) (t0 : String)
    (hnd : (pre ++ t0 :: post).Nodup)
    (hpre : ∀ u ∈ pre, (row ("Close_" ++ u)).isSome ∧ (prev u).isSome)
    (ht0 : row ("Close_" ++ t0) = none ∨ prev t0 = none) :
    (processRow prev row (pre ++ t0 :: post)).2 = none ∧
    (∀ u ∈ pre,
      (processRow prev row (pre ++ t0 :: post)).1 u = row ("Close_" ++ u)) ∧
    (processRow prev row (pre ++ t0 :: post)).1 t0 = row ("Close_" ++ t0) ∧
    (∀ x, x ∉ pre → x ≠ t0 →
      (processRow prev row (pre ++ t0 :: post)).1 x = prev x) := by
  induction pre generalizing prev with
  | nil =>
    simp only [List.nil_append]
    rcases ht0 with hclose | hprev
    · rw [processRow, hclose]
      refine ⟨rfl, by simp, ?_, ?_⟩
      · simp [upd, hclose]
      · intro x _ hx
        simp [upd, hx]
    · match hc : row ("Close_" ++ t0) with
      | none =>
        rw [processRow, hc]
        refine ⟨rfl, by simp, ?_, ?_⟩
        · simp [upd, hc]
        · intro x _ hx
          simp [upd, hx]
      | some c =>
        rw [processRow, hc, hprev]
        refine ⟨rfl, by simp, ?_, ?_⟩
        · simp [upd, hc]
        · intro x _ hx
          simp [upd, hx]
  | cons u pre ih =>
    have hu := hpre u (List.mem_cons_self u pre)
    match hc : row ("Close_" ++ u), hp : prev u with
    | none, _ =>
      exact absurd (hc ▸ hu.1) (by simp)
    | some c, none =>
      exact absurd (hp ▸ hu.2) (by simp)
    | some c, some pc =>
      have hnd' : (pre ++ t0 :: post).Nodup := hnd.of_cons
      have hu_notin : u ∉ pre ++ t0 :: post := (List.nodup_cons.mp hnd).1
      have hu_ne_t0 : u ≠ t0 := by
        intro h
        apply hu_notin
        rw [h]
        exact List.mem_append_right pre (List.mem_cons_self t0 post)
      have hu_notin_pre : u ∉ pre := fun h => hu_notin (List.mem_append_left _ h)
      have hpre' : ∀ v ∈ pre, (row ("Close_" ++ v)).isSome ∧
          ((upd prev u (some c)) v).isSome := by
        intro v hv
        have hvne : v ≠ u := fun h => hu_notin_pre (h ▸ hv)
        refine ⟨(hpre v (List.mem_cons_of_mem u hv)).1, ?_⟩
        rw [upd, if_neg hvne]
        exact (hpre v (List.mem_cons_of_mem u hv)).2
      have ht0' : row ("Close_" ++ t0) = none ∨ (upd prev u (some c)) t0 = none := by
        rcases ht0 with h | h
        · exact Or.inl h
        · refine Or.inr ?_
          rw [upd, if_neg (fun hh => hu_ne_t0 hh.symm)]
          exact h
      have IH := ih (upd prev u (some c)) hnd' hpre' ht0'
      have hstep : processRow prev row ((u :: pre) ++ t0 :: post) =
          ((processRow (upd prev u (some c)) row (pre ++ t0 :: post)).1,
           (processRow (upd prev u (some c)) row (pre ++ t0 :: post)).2.map
             (fun daily => (u, c / pc - 1) :: daily)) := by
        rw [List.cons_append, processRow, hc, hp]
      refine ⟨?_, ?_, ?_, ?_⟩
      · rw [hstep]
        rw [IH.1]
        rfl
      · intro v hv
        rcases List.mem_cons.mp hv with rfl | hv'
        · rw [hstep]
          have := IH.2.2.2 v hu_notin_pre hu_ne_t0
          rw [this]
          simp [upd, hc]
        · rw [hstep]
          exact IH.2.1 v hv'
      · rw [hstep]
        exact IH.2.2.1
      · intro x hx hxt0
        have hxne_u : x ≠ u := fun h => hx (h ▸ List.mem_cons_self u pre)
        have hx_pre : x ∉ pre := fun h => hx (List.mem_cons_of_mem u h)
        rw [hstep]
        have := IH.2.2.2 x hx_pre hxt0
        rw [this]
        simp [upd, hxne_u]

/-- The amended C2 at the counterexample row: the hypotheses hold with
`pre = ["A"]`, failing ticker `B`, `post = ["C"]`, and the conclusions
evaluate as stated. -/
theorem processRow_first_failure_witness :
    (processRow prevC2 rowC2 (["A"] ++ "B" :: ["C"])).2 = none ∧
    (∀ u ∈ ["A"],
      (processRow prevC2 rowC2 (["A"] ++ "B" :: ["C"])).1 u =
        rowC2 ("Close_" ++ u)) ∧
    (processRow prevC2 rowC2 (["A"] ++ "B" :: ["C"])).1 "B" =
      rowC2 ("Close_" ++ "B") ∧
    (∀ x, x ∉ ["A"] → x ≠ "B" →
      (processRow prevC2 rowC2 (["A"] ++ "B" :: ["C"])).1 x = prevC2 x) :=
  processRow_first_failure prevC2 rowC2 ["A"] ["C"] "B" (by decide)
    (by decide) (Or.inl (by decide))

/-!
## Claims C1 and C10: the frontier sweep

The sweep keeps a point iff its return beats the running maximum by more
than the epsilon; the lemmas below establish that the kept list is a sublist
of the sorted input, that every kept point's return exceeds the running
maximum by more than the epsilon, and the resulting dominance property.

The claim that the frontier is *strictly* increasing in risk (equivalently,
that no two frontier points share a risk, and that no frontier point is
dominated by *any* input point) is false: two points of equal risk and
returns `0` and `1` are both retained, and the first is then dominated by
the second.  What does hold: risk is non-decreasing, return strictly
increasing, and no frontier point is dominated by an input point of strictly
smaller risk.
-/

theorem sweep_sublist : ∀ (l : List PortfolioPoint) (m : Option ℚ),
    (sweep l m).Sublist l
  | [], _ => List.Sublist.refl []
  | p :: rest, m => by
    rw [sweep]
    split
    · exact (sweep_sublist rest (some p.expected_return)).cons₂ p
    · exact (sweep_sublist rest m).cons p

theorem mem_sweep_gt : ∀ (l : List PortfolioPoint) (mv : ℚ) (p : PortfolioPoint),
    p ∈ sweep l (some mv) → mv + eps12 < p.expected_return
  | [], _, p, h => absurd h (List.not_mem_nil p)
  | x :: rest, mv, p, h => by
    rw [sweep] at h
    by_cases hk : keepB (some mv) x.expected_return = true
    · rw [if_pos hk] at h
      have hxgt : mv + eps12 < x.expected_return := by
        rw [keepB] at hk
        rw [← qAdd_eq]
        exact hk
      rcases List.mem_cons.mp h with rfl | h'
      · exact hxgt
      · have h2 := mem_sweep_gt rest x.expected_return p h'
        have := eps12_pos
        linarith
    · rw [if_neg hk] at h
      exact mem_sweep_gt rest mv p h

theorem sweep_pairwise_ret : ∀ (l : List PortfolioPoint) (m : Option ℚ),
    (sweep l m).Pairwise (fun a b => a.expected_return < b.expected_return)
  | [], _ => List.Pairwise.nil
  | p :: rest, m => by
    rw [sweep]
    split
    · refine List.Pairwise.cons ?_ (sweep_pairwise_ret rest (some p.expected_return))
      intro q hq
      have := mem_sweep_gt rest p.expected_return q hq
      have := eps12_pos
      linarith
    · exact sweep_pairwise_ret rest m

theorem sweep_dominance : ∀ (l : List PortfolioPoint) (m : Option ℚ),
    l.Pairwise (fun a b => a.risk ≤ b.risk) →
    ∀ p ∈ sweep l m, ∀ q ∈ l, q.risk < p.risk →
      q.expected_return < p.expected_return
  | [], _, _, p, hp, _, _, _ => absurd hp (List.not_mem_nil p)
  | x :: rest, m, hsorted, p, hp, q, hq, hrisk => by
    rw [sweep] at hp
    have htail : rest.Pairwise (fun a b => a.risk ≤ b.risk) := hsorted.of_cons
    by_cases hk : keepB m x.expected_return = true
    · rw [if_pos hk] at hp
      rcases List.mem_cons.mp hp with rfl | hp'
      · rcases List.mem_cons.mp hq with rfl | hq'
        · exact absurd hrisk (lt_irrefl _)
        · have hle := List.rel_of_pairwise_cons hsorted hq'
          exact absurd hrisk (not_lt.mpr hle)
      · rcases List.mem_cons.mp hq with rfl | hq'
        · have h2 := mem_sweep_gt rest q.expected_return p hp'
          have := eps12_pos
          linarith
        · exact sweep_dominance rest (some x.expected_return) htail p hp' q hq' hrisk
    · rw [if_neg hk] at hp
      rcases List.mem_cons.mp hq with rfl | hq'
      · cases m with
        | none => exact absurd rfl hk
        | some mv =>
          have hqle : q.expected_return ≤ mv + eps12 := by
            rw [keepB] at hk
            have hnot : ¬ (qAdd mv eps12 < q.expected_return) := fun hlt => hk hlt
            rw [qAdd_eq] at hnot
            exact not_lt.mp hnot
          have h2 := mem_sweep_gt rest mv p hp
          linarith
      · exact sweep_dominance rest m htail p hp q hq' hrisk

/-- A frontier input point with expected return `0` and risk `0`. -/
def ptA : PortfolioPoint := ⟨[], 0, 0⟩

/-- A frontier input point with expected return `1` and the same risk `0`. -/
def ptB : PortfolioPoint := ⟨[], 1, 0⟩

/-- C1 as stated is false: on the input `[ptA, ptB]` (two points of equal
risk), the frontier keeps both, so it is not strictly increasing in risk,
the two kept points share a risk, and the first kept point is dominated by
the second input point (equal risk, strictly larger return). -/
theorem frontier_counterexample :
    ¬ (List.Chain'
        (fun a b => a.risk < b.risk ∧ a.expected_return < b.expected_return)
        (trace_efficient_frontier [ptA, ptB]) ∧
      List.Pairwise (fun a b => a.risk ≠ b.risk)
        (trace_efficient_frontier [ptA, ptB]) ∧
      ∀ p ∈ trace_efficient_frontier [ptA, ptB], ¬ ∃ q ∈ [ptA, ptB],
        q.risk ≤ p.risk ∧ p.expected_return ≤ q.expected_return ∧
          (q.risk < p.risk ∨ p.expected_return < q.expected_return)) := by
  rintro ⟨-, hdist, -⟩
  have hF : trace_efficient_frontier [ptA, ptB] = [ptA, ptB] := by decide
  rw [hF] at hdist
  exact List.rel_of_pairwise_cons hdist (List.mem_cons_self ptB []) rfl

/-- C1 amended: walked in order, the frontier is non-decreasing in risk and
strictly increasing in expected return (pairwise, hence also between
consecutive points), and no frontier point is dominated by an input point of
strictly smaller risk — every input point of strictly smaller risk also has
a strictly smaller expected return. -/
theorem frontier_monotone_undominated (points : List PortfolioPoint) :
    List.Pairwise
      (fun a b => a.risk ≤ b.risk ∧ a.expected_return < b.expected_return)
      (trace_efficient_frontier points) ∧
    ∀ p ∈ trace_efficient_frontier points, ∀ q ∈ points,
      q.risk < p.risk → q.expected_return < p.expected_return := by
  have htotal : IsTotal PortfolioPoint (fun p q => p.risk ≤ q.risk) :=
    ⟨fun a b => le_total _ _⟩
  have htrans : IsTrans PortfolioPoint (fun p q => p.risk ≤ q.risk) :=
    ⟨fun _ _ _ => le_trans⟩
  have hsorted : (points.insertionSort fun p q => p.risk ≤ q.risk).Pairwise
      (fun p q => p.risk ≤ q.risk) := List.sorted_insertionSort _ _
  constructor
  · rw [trace_efficient_frontier]
    exact List.Pairwise.and (hsorted.sublist (sweep_sublist _ _))
      (sweep_pairwise_ret _ _)
  · intro p hp q hq hrisk
    rw [trace_efficient_frontier] at hp
    have hq' : q ∈ points.insertionSort fun p q => p.risk ≤ q.risk :=
      (List.perm_insertionSort _ _).mem_iff.mpr hq
    exact sweep_dominance _ none hsorted p hp q hq' hrisk

/-- A frontier input point with expected return `0` and risk `1`. -/
def ptD : PortfolioPoint := ⟨[], 0, 1⟩

/-- A frontier input point with expected return `5` and risk `2`. -/
def ptC : PortfolioPoint := ⟨[], 5, 2⟩

/-- The amended C1 applied on `[ptD, ptC]`: `ptC` is on the frontier, `ptD`
has strictly smaller risk, so `ptD`'s return is strictly smaller. -/
theorem frontier_monotone_undominated_witness :
    ptD.expected_return < ptC.expected_return :=
  (frontier_monotone_undominated [ptD, ptC]).2 ptC (by decide) ptD
    (by decide) (by decide)

/-- C10: on a non-empty input, the frontier is non-empty and its first point
attains the minimum risk of the whole input list.  (Input returns are
rationals here, hence automatically finite.) -/
theorem frontier_head_min_risk (points : List PortfolioPoint)
    (h : points ≠ []) :
    ∃ p rest, trace_efficient_frontier points = p :: rest ∧ p ∈ points ∧
      ∀ q ∈ points, p.risk ≤ q.risk := by
  have htotal : IsTotal PortfolioPoint (fun p q => p.risk ≤ q.risk) :=
    ⟨fun a b => le_total _ _⟩
  have htrans : IsTrans PortfolioPoint (fun p q => p.risk ≤ q.risk) :=
    ⟨fun _ _ _ => le_trans⟩
  have hperm := List.perm_insertionSort
    (fun p q : PortfolioPoint => p.risk ≤ q.risk) points
  have hsorted : (points.insertionSort fun p q => p.risk ≤ q.risk).Pairwise
      (fun p q => p.risk ≤ q.risk) := List.sorted_insertionSort _ _
  cases hs : points.insertionSort fun p q => p.risk ≤ q.risk with
  | nil =>
    rw [hs] at hperm
    exact absurd (hperm.symm.eq_nil) h
  | cons p tail =>
    refine ⟨p, sweep tail (some p.expected_return), ?_, ?_, ?_⟩
    · rw [trace_efficient_frontier, hs, sweep,
        if_pos (show keepB none p.expected_return = true from rfl)]
    · have hmem : p ∈ points.insertionSort fun p q => p.risk ≤ q.risk := by
        rw [hs]; exact List.mem_cons_self p tail
      exact hperm.mem_iff.mp hmem
    · intro q hq
      have hq' : q ∈ p :: tail := by
        rw [← hs]
        exact hperm.mem_iff.mpr hq
      rcases List.mem_cons.mp hq' with rfl | hq''
      · exact le_rfl
      · rw [hs] at hsorted
        exact List.rel_of_pairwise_cons hsorted hq''

/-- C10 applied on the input `[ptC, ptD]`: the frontier starts with the
minimum-risk point. -/
theorem frontier_head_min_risk_witness :
    ∃ p rest, trace_efficient_frontier [ptC, ptD] = p :: rest ∧
      p ∈ [ptC, ptD] ∧ ∀ q ∈ [ptC, ptD], p.risk ≤ q.risk :=
  frontier_head_min_risk [ptC, ptD] (by decide)

/-!
## Claims C3, C6 and C7: the weight grid

The inner loop bound is `int((1 - w1) / step) + 1` computed in binary64.
Because `0.02` is not a binary64 value, `(1 - w1) / step` falls just short of
the integer `50 - i` for 14 of the 51 values of `i`, `int()` truncates, and
the inner endpoint `w2 = 1 - w1` is never generated for those `i`: the
accepted set is not the complete triangular lattice (C3 is corrected below).
Every pair that is iterated is accepted, with non-negative weights summing
to `1` within `10⁻⁹` (C6), which `gridPairs_ok` establishes by evaluating
the whole grid.
-/

/-- Per-pair check used for C3 and C6: the pair is accepted, its three
weights are non-negative, and they sum to `1` within an absolute `10⁻⁹`
(exact rational arithmetic on the stored weights). -/
def pairOK (i j : ℕ) : Bool :=
  match gridWeights i j with
  | none => false
  | some w =>
    !Rat.blt w.1 0 && !Rat.blt w.2.1 0 && !Rat.blt w.2.2 0 &&
    !Rat.blt (Rat.divInt 1 (10^9)) (qabs (qSub (qAdd (qAdd w.1 w.2.1) w.2.2) 1))

/-- `pairOK` as a function of the two weight values. -/
def pairOKtab (w1 w2 : ℚ) : Bool :=
  match combineWeights w1 w2 with
  | none => false
  | some w =>
    !Rat.blt w.1 0 && !Rat.blt w.2.1 0 && !Rat.blt w.2.2 0 &&
    !Rat.blt (Rat.divInt 1 (10^9)) (qabs (qSub (qAdd (qAdd w.1 w.2.1) w.2.2) 1))

theorem pairOK_eq_tab (i j : ℕ) : pairOK i j = pairOKtab (wval i) (wval j) := rfl

/-- The 51 binary64 values `k * step` for `k = 0, …, 50`
(validated against `wval` by `wTable_eq`). -/
def wTable : List ℚ := [(0 : ℚ),
  Rat.divInt 5764607523034235 (2^58),
  Rat.divInt 5764607523034235 (2^57),
  Rat.divInt 1080863910568919 (2^54),
  Rat.divInt 5764607523034235 (2^56),
  Rat.divInt 3602879701896397 (2^55),
  Rat.divInt 1080863910568919 (2^53),
  Rat.divInt 1261007895663739 (2^53),
  Rat.divInt 5764607523034235 (2^55),
  Rat.divInt 3242591731706757 (2^54),
  Rat.divInt 3602879701896397 (2^54),
  Rat.divInt 7926335344172073 (2^55),
  Rat.divInt 1080863910568919 (2^52),
  Rat.divInt 1170935903116329 (2^52),
  Rat.divInt 1261007895663739 (2^52),
  Rat.divInt 5404319552844595 (2^54),
  Rat.divInt 5764607523034235 (2^54),
  Rat.divInt 6124895493223875 (2^54),
  Rat.divInt 3242591731706757 (2^53),
  Rat.divInt 3422735716801577 (2^53),
  Rat.divInt 3602879701896397 (2^53),
  Rat.divInt 7566047373982433 (2^54),
  Rat.divInt 7926335344172073 (2^54),
  Rat.divInt 8286623314361713 (2^54),
  Rat.divInt 1080863910568919 (2^51),
  Rat.divInt 1 (2^1),
  Rat.divInt 1170935903116329 (2^51),
  Rat.divInt 607985949695017 (2^50),
  Rat.divInt 1261007895663739 (2^51),
  Rat.divInt 5224175567749775 (2^53),
  Rat.divInt 5404319552844595 (2^53),
  Rat.divInt 5584463537939415 (2^53),
  Rat.divInt 5764607523034235 (2^53),
  Rat.divInt 5944751508129055 (2^53),
  Rat.divInt 6124895493223875 (2^53),
  Rat.divInt 6305039478318695 (2^53),
  Rat.divInt 3242591731706757 (2^52),
  Rat.divInt 3332663724254167 (2^52),
  Rat.divInt 3422735716801577 (2^52),
  Rat.divInt 3512807709348987 (2^52),
  Rat.divInt 3602879701896397 (2^52),
  Rat.divInt 3692951694443807 (2^52),
  Rat.divInt 7566047373982433 (2^53),
  Rat.divInt 7746191359077253 (2^53),
  Rat.divInt 7926335344172073 (2^53),
  Rat.divInt 8106479329266893 (2^53),
  Rat.divInt 8286623314361713 (2^53),
  Rat.divInt 8466767299456533 (2^53),
  Rat.divInt 1080863910568919 (2^50),
  Rat.divInt 2206763817411543 (2^51),
  (1 : ℚ)]

/-- The 51 inner loop counts (validated against `innerCount` by
`innerTable_eq`). -/
def innerTable : List ℕ := [51, 50, 49, 47, 47, 46, 45, 44, 43, 42, 41, 40,
  39, 38, 37, 36, 34, 33, 33, 32, 31, 30, 29, 28, 27, 26, 25, 23, 22, 22,
  21, 20, 19, 17, 16, 15, 15, 14, 13, 11, 10, 9, 9, 8, 7, 5, 4, 3, 3, 2, 1]

theorem wTable_eq : (List.range 51).map wval = wTable := by decide

theorem innerTable_eq : (List.range 51).map innerCount = innerTable := by decide

theorem innerTable_le : innerTable.all (fun c => c ≤ 51) = true := by decide

/-- The row check: the pairs of one outer iteration all pass `pairOKtab`. -/
def rowOK (w1 : ℚ) (cnt : ℕ) : Bool :=
  (wTable.take cnt).all fun w2 => pairOKtab w1 w2

/-- Grid rows 0–3 pass the pair check (decided by evaluation; the grid is
checked in slices to keep each kernel evaluation small). -/
theorem gridRows0 : ((List.range' 0 4).all fun i =>
    rowOK (wTable.getD i 0) (innerTable.getD i 0)) = true := by decide

/-- Grid rows 4–7 pass the pair check. -/
theorem gridRows4 : ((List.range' 4 4).all fun i =>
    rowOK (wTable.getD i 0) (innerTable.getD i 0)) = true := by decide

/-- Grid rows 8–11 pass the pair check. -/
theorem gridRows8 : ((List.range' 8 4).all fun i =>
    rowOK (wTable.getD i 0) (innerTable.getD i 0)) = true := by decide

/-- Grid rows 12–15 pass the pair check. -/
theorem gridRows12 : ((List.range' 12 4).all fun i =>
    rowOK (wTable.getD i 0) (innerTable.getD i 0)) = true := by decide

/-- Grid rows 16–19 pass the pair check. -/
theorem gridRows16 : ((List.range' 16 4).all fun i =>
    rowOK (wTable.getD i 0) (innerTable.getD i 0)) = true := by decide

/-- Grid rows 20–23 pass the pair check. -/
theorem gridRows20 : ((List.range' 20 4).all fun i =>
    rowOK (wTable.getD i 0) (innerTable.getD i 0)) = true := by decide

/-- Grid rows 24–27 pass the pair check. -/
theorem gridRows24 : ((List.range' 24 4).all fun i =>
    rowOK (wTable.getD i 0) (innerTable.getD i 0)) = true := by decide

/-- Grid rows 28–31 pass the pair check. -/
theorem gridRows28 : ((List.range' 28 4).all fun i =>
    rowOK (wTable.getD i 0) (innerTable.getD i 0)) = true := by decide

/-- Grid rows 32–35 pass the pair check. -/
theorem gridRows32 : ((List.range' 32 4).all fun i =>
    rowOK (wTable.getD i 0) (innerTable.getD i 0)) = true := by decide

/-- Grid rows 36–39 pass the pair check. -/
theorem gridRows36 : ((List.range' 36 4).all fun i =>
    rowOK (wTable.getD i 0) (innerTable.getD i 0)) = true := by decide

/-- Grid rows 40–43 pass the pair check. -/
theorem gridRows40 : ((List.range' 40 4).all fun i =>
    rowOK (wTable.getD i 0) (innerTable.getD i 0)) = true := by decide

/-- Grid rows 44–47 pass the pair check. -/
theorem gridRows44 : ((List.range' 44 4).all fun i =>
    rowOK (wTable.getD i 0) (innerTable.getD i 0)) = true := by decide

/-- Grid rows 48–50 pass the pair check. -/
theorem gridRows48 : ((List.range' 48 3).all fun i =>
    rowOK (wTable.getD i 0) (innerTable.getD i 0)) = true := by decide

/-- All 51 grid rows pass the pair check. -/
theorem gridRows_all : ((List.range 51).all fun i =>
    rowOK (wTable.getD i 0) (innerTable.getD i 0)) = true := by
  have hsplit : List.range 51 =
      List.range' 0 4 ++ List.range' 4 4 ++ List.range' 8 4 ++
      List.range' 12 4 ++ List.range' 16 4 ++ List.range' 20 4 ++
      List.range' 24 4 ++ List.range' 28 4 ++ List.range' 32 4 ++
      List.range' 36 4 ++ List.range' 40 4 ++ List.range' 44 4 ++
      List.range' 48 3 := by decide
  rw [hsplit]
  simp only [List.all_append, Bool.and_eq_true]
  exact ⟨⟨⟨⟨⟨⟨⟨⟨⟨⟨⟨⟨gridRows0, gridRows4⟩, gridRows8⟩, gridRows12⟩,
    gridRows16⟩, gridRows20⟩, gridRows24⟩, gridRows28⟩, gridRows32⟩,
    gridRows36⟩, gridRows40⟩, gridRows44⟩, gridRows48⟩

theorem wTable_getD {k : ℕ} (hk : k < 51) : wTable.getD k 0 = wval k := by
  rw [← wTable_eq, getD_map_lt wval (List.range 51) k (by simpa using hk) 0 0]
  congr 1
  rw [List.getD_eq_getElem?_getD, List.getElem?_eq_getElem (by simpa using hk)]
  simp

theorem innerTable_getD {k : ℕ} (hk : k < 51) :
    innerTable.getD k 0 = innerCount k := by
  rw [← innerTable_eq,
    getD_map_lt innerCount (List.range 51) k (by simpa using hk) 0 0]
  congr 1
  rw [List.getD_eq_getElem?_getD, List.getElem?_eq_getElem (by simpa using hk)]
  simp

theorem innerCount_le {i : ℕ} (hi : i < 51) : innerCount i ≤ 51 := by
  rw [← innerTable_getD hi]
  have hlen : innerTable.length = 51 := rfl
  have hmem : innerTable.getD i 0 ∈ innerTable :=
    getD_lt_mem innerTable i (hlen ▸ hi) 0
  have := List.all_eq_true.mp innerTable_le _ hmem
  simpa using this

theorem pairOK_of_lt {i j : ℕ} (hi : i < outerCount) (hj : j < innerCount i) :
    pairOK i j = true := by
  have houter : outerCount = 51 := by decide
  have hi51 : i < 51 := houter ▸ hi
  have hj51 : j < 51 := lt_of_lt_of_le hj (innerCount_le hi51)
  have hrow : rowOK (wTable.getD i 0) (innerTable.getD i 0) = true :=
    List.all_eq_true.mp gridRows_all i (List.mem_range.mpr hi51)
  rw [wTable_getD hi51, innerTable_getD hi51, rowOK] at hrow
  have hmem : wval j ∈ wTable.take (innerCount i) := by
    rw [← wTable_eq, ← List.map_take, List.take_range]
    exact List.mem_map_of_mem wval (List.mem_range.mpr (lt_min hj hj51))
  have := List.all_eq_true.mp hrow (wval j) hmem
  rw [pairOK_eq_tab]
  exact this

theorem pairOK_isSome {i j : ℕ} (h : pairOK i j = true) :
    (gridWeights i j).isSome = true := by
  rw [pairOK] at h
  cases hg : gridWeights i j with
  | none => rw [hg] at h; cases h
  | some w => rfl

theorem pairOK_props {i j : ℕ} {w : ℚ × ℚ × ℚ} (h : pairOK i j = true)
    (hw : gridWeights i j = some w) :
    0 ≤ w.1 ∧ 0 ≤ w.2.1 ∧ 0 ≤ w.2.2 ∧
    |w.1 + w.2.1 + w.2.2 - 1| ≤ 1/10^9 := by
  rw [pairOK, hw] at h
  simp only [Bool.and_eq_true, Bool.not_eq_true'] at h
  obtain ⟨⟨⟨h1, h2⟩, h3⟩, h4⟩ := h
  have n1 : ¬ (w.1 < 0) := by rw [rat_lt_iff_blt, h1]; exact Bool.false_ne_true
  have n2 : ¬ (w.2.1 < 0) := by rw [rat_lt_iff_blt, h2]; exact Bool.false_ne_true
  have n3 : ¬ (w.2.2 < 0) := by rw [rat_lt_iff_blt, h3]; exact Bool.false_ne_true
  have n4 : ¬ (Rat.divInt 1 (10^9) <
      qabs (qSub (qAdd (qAdd w.1 w.2.1) w.2.2) 1)) := by
    rw [rat_lt_iff_blt, h4]; exact Bool.false_ne_true
  rw [qabs_eq, qSub_eq, qAdd_eq, qAdd_eq, Rat.divInt_eq_div] at n4
  refine ⟨not_lt.mp n1, not_lt.mp n2, not_lt.mp n3, ?_⟩
  have := not_lt.mp n4
  calc |w.1 + w.2.1 + w.2.2 - 1| ≤ ((1 : ℤ) : ℚ) / ((10^9 : ℤ) : ℚ) := this
    _ = 1/10^9 := by norm_num

/-- The indices whose inner loop loses its endpoint (those `i` with
`int((1 - i*step)/step) = 49 - i` instead of `50 - i`). -/
def missingEndpoint : List ℕ := [3, 16, 17, 27, 28, 33, 34, 35, 39, 40, 41, 45, 46, 47]

/-- C3 as stated is false: the lattice point with indices `i = 3`, `j = 47`
(weights `(0.06, 0.94, 0)`, on the simplex since `3 + 47 ≤ 50`) is never
generated — the inner loop for `i = 3` runs only `j < 47`, excluding the
endpoint `w2 = 1 - w1`. -/
theorem grid_counterexample :
    3 + 47 ≤ 50 ∧
    ¬ (47 < innerCount 3 ∧ (gridWeights 3 47).isSome = true) := by
  decide

/-- C3 amended: `w1` does range over `i*step` for `i = 0, …, 50` with the
endpoint `w1 = 1` included, and every iterated pair is accepted; but for
each `i` the inner loop runs `j < innerCount i`, and `innerCount i` is
`50 - i` — excluding the claimed endpoint `w2 = 1 - w1` — for exactly the
14 listed values of `i`, and `51 - i` (endpoint included) otherwise.  The
accepted set is therefore the triangular lattice minus those 14 boundary
points. -/
theorem grid_structure :
    outerCount = 51 ∧
    wval 50 = 1 ∧
    (∀ i ∈ List.range 51,
      innerCount i = if i ∈ missingEndpoint then 50 - i else 51 - i) ∧
    (∀ i ∈ List.range outerCount, ∀ j ∈ List.range (innerCount i),
      (gridWeights i j).isSome = true) := by
  refine ⟨by decide, by decide, by decide, ?_⟩
  intro i hi j hj
  exact pairOK_isSome
    (pairOK_of_lt (List.mem_range.mp hi) (List.mem_range.mp hj))

/-- The amended C3 applied at `i = 0`, `j = 0`: the pair is generated and
accepted. -/
theorem grid_structure_witness : (gridWeights 0 0).isSome = true :=
  grid_structure.2.2.2 0 (by decide) 0 (by decide)

/-- Membership in the grid, unfolded to indices. -/
theorem mem_portfolioGrid (tickers : List String) (ers : List ℚ)
    (cov : List (List ℚ)) (p : GridPoint) :
    p ∈ portfolioGrid tickers ers cov ↔
    ∃ i, i < outerCount ∧ ∃ j, j < innerCount i ∧ ∃ w,
      gridWeights i j = some w ∧
      p = { weights := tickers.zip [w.1, w.2.1, w.2.2]
            expected_return := dotProduct [w.1, w.2.1, w.2.2] ers
            variance := portfolio_variance [w.1, w.2.1, w.2.2] cov } := by
  rw [portfolioGrid]
  simp only [List.mem_flatMap, List.mem_filterMap, List.mem_range,
    Option.map_eq_some']
  constructor
  · rintro ⟨i, hi, j, hj, w, hw, rfl⟩
    exact ⟨i, hi, j, hj, w, hw, rfl⟩
  · rintro ⟨i, hi, j, hj, w, hw, rfl⟩
    exact ⟨i, hi, j, hj, w, hw, rfl⟩

/-- On success, `enumerate_portfolios` had three tickers and returned the
grid. -/
theorem enumerate_portfolios_ok {tickers : List String} {ers : List ℚ}
    {cov : List (List ℚ)} {l : List GridPoint}
    (hok : enumerate_portfolios tickers ers cov = .ok l) :
    tickers.length = 3 ∧ l = portfolioGrid tickers ers cov := by
  rw [enumerate_portfolios] at hok
  by_cases h3 : tickers.length = 3
  · rw [if_neg (fun hne => hne h3)] at hok
    exact ⟨h3, (Except.ok.inj hok).symm⟩
  · rw [if_pos h3] at hok
    cases hok

/-- The weight values of a grid point: zipping three tickers against the
three weights and projecting back recovers the weights. -/
theorem weights_map_snd {tickers : List String} (h3 : tickers.length = 3)
    (a b c : ℚ) : ((tickers.zip [a, b, c]).map Prod.snd) = [a, b, c] :=
  List.map_snd_zip tickers [a, b, c] (by rw [h3]; simp)

/-- C6: every weight vector accepted by `enumerate_portfolios` has its three
weights summing to `1` within an absolute `10⁻⁹`, and no weight below
`-10⁻⁹` (indeed none is negative at all). -/
theorem grid_weights_valid (tickers : List String) (ers : List ℚ)
    (cov : List (List ℚ)) (l : List GridPoint)
    (hok : enumerate_portfolios tickers ers cov = .ok l)
    (p : GridPoint) (hp : p ∈ l) :
    |((p.weights.map Prod.snd).sum) - 1| ≤ 1/10^9 ∧
    (∀ x ∈ p.weights.map Prod.snd, -(1/10^9) ≤ x) ∧
    (∀ x ∈ p.weights.map Prod.snd, 0 ≤ x) := by
  obtain ⟨h3, rfl⟩ := enumerate_portfolios_ok hok
  obtain ⟨i, hi, j, hj, w, hw, rfl⟩ := (mem_portfolioGrid _ _ _ _).mp hp
  obtain ⟨hw1, hw2, hw3, hsum⟩ := pairOK_props (pairOK_of_lt hi hj) hw
  rw [weights_map_snd h3]
  have hsum3 : ([w.1, w.2.1, w.2.2].sum) = w.1 + w.2.1 + w.2.2 := by
    simp [add_assoc]
  refine ⟨by rw [hsum3]; exact hsum, ?_, ?_⟩
  · intro x hx
    have h9 : (0 : ℚ) ≤ 1/10^9 := by norm_num
    simp only [List.mem_cons, List.not_mem_nil, or_false] at hx
    rcases hx with rfl | rfl | rfl
    · linarith
    · linarith
    · linarith
  · intro x hx
    simp only [List.mem_cons, List.not_mem_nil, or_false] at hx
    rcases hx with rfl | rfl | rfl
    · exact hw1
    · exact hw2
    · exact hw3

/-- C6 applied at the first grid point of a three-asset instance. -/
theorem grid_weights_valid_witness :
    |((GridPoint.mk [("A", 0), ("B", 0), ("C", 1)] 0 0).weights.map
      Prod.snd).sum - 1| ≤ 1/10^9 ∧
    (∀ x ∈ (GridPoint.mk [("A", 0), ("B", 0), ("C", 1)] 0 0).weights.map
      Prod.snd, -(1/10^9) ≤ x) ∧
    (∀ x ∈ (GridPoint.mk [("A", 0), ("B", 0), ("C", 1)] 0 0).weights.map
      Prod.snd, 0 ≤ x) :=
  grid_weights_valid ["A", "B", "C"] [0, 0, 0]
    [[0, 0, 0], [0, 0, 0], [0, 0, 0]] _ rfl _ (by decide)

/-- C7: every point produced by `enumerate_portfolios` stores as variance
exactly the quadratic form `portfolio_variance` of its weights with the
covariance matrix, its risk is the square root of that variance floored at
`0`, the risk is non-negative, and the square root is never applied to a
negative argument. -/
theorem grid_risk_sqrt (tickers : List String) (ers : List ℚ)
    (cov : List (List ℚ)) (l : List GridPoint)
    (hok : enumerate_portfolios tickers ers cov = .ok l)
    (p : GridPoint) (hp : p ∈ l) :
    p.variance = portfolio_variance (p.weights.map Prod.snd) cov ∧
    GridPoint.risk p =
      Real.sqrt (max ((portfolio_variance (p.weights.map Prod.snd) cov : ℚ) : ℝ) 0) ∧
    0 ≤ GridPoint.risk p ∧
    (0 : ℝ) ≤ max ((p.variance : ℚ) : ℝ) 0 := by
  obtain ⟨h3, rfl⟩ := enumerate_portfolios_ok hok
  obtain ⟨i, hi, j, hj, w, hw, rfl⟩ := (mem_portfolioGrid _ _ _ _).mp hp
  rw [GridPoint.risk]
  rw [weights_map_snd h3]
  exact ⟨rfl, rfl, Real.sqrt_nonneg _, le_max_right _ _⟩

/-- C7 applied at the first grid point of a three-asset instance. -/
theorem grid_risk_sqrt_witness :
    (GridPoint.mk [("A", 0), ("B", 0), ("C", 1)] 0 0).variance =
      portfolio_variance ((GridPoint.mk [("A", 0), ("B", 0), ("C", 1)]
        0 0).weights.map Prod.snd) [[0, 0, 0], [0, 0, 0], [0, 0, 0]] ∧
    GridPoint.risk (GridPoint.mk [("A", 0), ("B", 0), ("C", 1)] 0 0) =
      Real.sqrt (max ((portfolio_variance ((GridPoint.mk
        [("A", 0), ("B", 0), ("C", 1)] 0 0).weights.map Prod.snd)
          [[0, 0, 0], [0, 0, 0], [0, 0, 0]] : ℚ) : ℝ) 0) ∧
    0 ≤ GridPoint.risk (GridPoint.mk [("A", 0), ("B", 0), ("C", 1)] 0 0) ∧
    (0 : ℝ) ≤ max (((GridPoint.mk [("A", 0), ("B", 0), ("C", 1)]
      0 0).variance : ℚ) : ℝ) 0 :=
  grid_risk_sqrt ["A", "B", "C"] [0, 0, 0]
    [[0, 0, 0], [0, 0, 0], [0, 0, 0]] _ rfl _ (by decide)

end Frontier
